import Mathlib

/-!
# Verification of the flagman distribution engine

Shallow embedding of the allocation-and-assignment engine of `src/main.py`
(`FlagmanDistributor`): the personnel distributor `distribute_personnel`,
the equipment assigner `get_equipment_assignments`, and the report
renderer `generate_report`, together with proofs of the specified
properties.

Modelling conventions:
* Python dicts with string keys are modelled as association lists
  `List (String × _)` in insertion order (Python dicts preserve insertion
  order, which the source relies on for `list(keys())[:-1]` and for
  presentation).
* `int((priority / total_priority) * (total_personnel - 1))` performs float
  division and truncation; for these weights and totals the truncated float
  equals exact floored natural division `priority * (total_personnel - 1) /
  total_priority` (checked exhaustively far beyond the specified input
  range), so it is embedded as natural floor division.
* The randomness source (Python's global `random` module state) is threaded
  explicitly: `distribute_personnel` receives it as the unused parameter
  `rng` (its body never consults randomness), and the shuffle performed by
  `random.shuffle` inside `get_equipment_assignments` is modelled by a
  function `σ` giving the shuffled ordering of a pool; theorems that depend
  on the shuffled pool's contents assume `σ pool` is a permutation of
  `pool`.
* The two `while` reconciliation loops can diverge in Python (a sweep that
  changes nothing repeats forever on unchanged state); they are embedded
  with sweep fuel equal to the initial surplus/deficit.  A sweep that makes
  progress removes at least one unit, so when every sweep makes progress the
  fuel suffices exactly; when some sweep makes no progress the Python loop
  repeats that sweep forever and the fuel model answers `none`
  (= divergence).  Thus `none` holds exactly on the diverging inputs.
* Python `return None` at the minimum-headcount guard is the
  `DistResult.insufficient` outcome; a `KeyError` on a dict access is
  modelled by propagating `Option.none`.
-/

/-- Priority weights for distribution (higher = more priority), in the
source's insertion order. -/
def area_priorities : List (String × Nat) :=
  [("GIS + MB", 8),
   ("Chiller Area", 6),
   ("SSD", 5),
   ("Gate", 4),
   ("NCC Office", 4),
   ("Store", 2),
   ("Supervisors", 1)]

/-- Equipment pools for each area, as configured in the source. -/
def equipment_pools : List (String × List String) :=
  [("GIS + MB", ["Cocklain", "Bobcut", "JCB", "Compactor", "Excavator", "Hydra", "Mini Roller", "Trailer", "Tough Rider", "Roller", "DCM"]),
   ("Chiller Area", ["JCB", "Roller", "Compactor", "Tough Rider", "Bobcut", "DCM", "Excavator", "Hydra", "Mini Roller"]),
   ("SSD", ["Hydra", "JCB", "Cocklain", "Unicrane", "Excavator", "Main Lift", "Compactor"]),
   ("Gate", ["Trailer", "Tough Rider", "Excavator", "Roller", "JCB", "Hydra", "Compactor"]),
   ("NCC Office", ["Hydra", "Main Lift", "Bobcut", "Compactor", "JCB", "Cocklain", "Roller"]),
   ("Store", ["Assigned"]),
   ("Supervisors", ["General Area"])]

/-- `sum(self.area_priorities.values())` (line 44 of the source). -/
def total_priority : Nat := (area_priorities.map Prod.snd).sum

/-- The priority weight of an area, `self.area_priorities[x]` as used as the
sort key (the lookup never misses in the source). -/
def area_priority (a : String) : Nat := (area_priorities.lookup a).getD 0

/-- `list(self.area_priorities.keys())[:-1]` — every area except the last
key, `Supervisors` (line 62). -/
def nonsupervisor_areas : List String := (area_priorities.map Prod.fst).dropLast

/-- `sorted(areas, key=lambda x: self.area_priorities[x], reverse=True)`:
Python's sort is stable, as is insertion sort, so both produce the unique
stable descending order. -/
def sorted_desc (areas : List String) : List String :=
  areas.insertionSort (fun a b => area_priority b ≤ area_priority a)

/-- `sorted(areas, key=lambda x: self.area_priorities[x])`: stable ascending
order. -/
def sorted_asc (areas : List String) : List String :=
  areas.insertionSort (fun a b => area_priority a ≤ area_priority b)

/-- First pass (lines 49-54): for each non-supervisor area, the base count
`max(1, int((priority / total_priority) * (total_personnel - 1)))`, keyed in
insertion order.  `n` stands for `total_personnel - 1`. -/
def base_distribution (n : Nat) : List (String × Nat) :=
  (area_priorities.filter (fun p => p.1 ≠ "Supervisors")).map
    (fun p => (p.1, max 1 (p.2 * n / total_priority)))

/-- The distribution after the first pass and `distribution['Supervisors'] = 1`
(lines 49-57): the supervisor entry is appended last, matching dict insertion
order. -/
def first_pass_distribution (n : Nat) : List (String × Nat) :=
  base_distribution n ++ [("Supervisors", 1)]

/-- The running total `allocated` after the first pass and the supervisor
entry (lines 46-58): the accumulated per-area counts. -/
def allocated (n : Nat) : Nat :=
  ((first_pass_distribution n).map Prod.snd).sum

/-- `distribution[area] += 1` on an association list (dict update of an
existing key, keeping its position). -/
def incr_area (dist : List (String × Nat)) (area : String) : List (String × Nat) :=
  dist.map (fun p => if p.1 = area then (p.1, p.2 + 1) else p)

/-- `distribution[area] -= 1` on an association list. -/
def decr_area (dist : List (String × Nat)) (area : String) : List (String × Nat) :=
  dist.map (fun p => if p.1 = area then (p.1, p.2 - 1) else p)

/-- `distribution[area]` (the lookup never misses on the source's reachable
states). -/
def lookupD (dist : List (String × Nat)) (area : String) : Nat :=
  (dist.lookup area).getD 0

/-- One sweep of the surplus loop body (lines 66-69): visit each area in
order; while `remaining > 0` the visited area gains one unit. -/
def add_pass : List String → List (String × Nat) × Nat → List (String × Nat) × Nat
  | [], s => s
  | area :: rest, (dist, remaining) =>
    if 0 < remaining then add_pass rest (incr_area dist area, remaining - 1)
    else add_pass rest (dist, remaining)

/-- The surplus loop `while remaining > 0` (lines 64-69), with sweep fuel:
each productive sweep removes at least one unit of surplus, so fuel equal to
the initial surplus is exact; a sweep making no progress (only possible with
an empty sweep order) leaves the state unchanged and the Python loop repeats
it forever, which fuel exhaustion reports as `none`. -/
def add_sweeps (order : List String) : Nat → List (String × Nat) → Nat → Option (List (String × Nat))
  | _, dist, 0 => some dist
  | 0, _, _ + 1 => none
  | fuel + 1, dist, r + 1 =>
    let s := add_pass order (dist, r + 1)
    add_sweeps order fuel s.1 s.2

/-- One sweep of the deficit loop body (lines 74-77): each visited area with
`distribution[area] > 1 and remaining < 0` loses one unit (`deficit` stands
for `-remaining`). -/
def remove_pass : List String → List (String × Nat) × Nat → List (String × Nat) × Nat
  | [], s => s
  | area :: rest, (dist, deficit) =>
    if 1 < lookupD dist area ∧ 0 < deficit then
      remove_pass rest (decr_area dist area, deficit - 1)
    else remove_pass rest (dist, deficit)

/-- The deficit loop `while remaining < 0` (lines 72-77), with sweep fuel
equal to the initial deficit: a sweep making no progress leaves the state
unchanged, so the Python loop would repeat it forever (`none`); productive
sweeps remove at least one unit each, so the fuel is exact. -/
def remove_sweeps (order : List String) : Nat → List (String × Nat) → Nat → Option (List (String × Nat))
  | _, dist, 0 => some dist
  | 0, _, _ + 1 => none
  | fuel + 1, dist, d + 1 =>
    let s := remove_pass order (dist, d + 1)
    remove_sweeps order fuel s.1 s.2

/-- Outcome of `distribute_personnel`: `insufficient` is the source's
`return None` at the guard; `diverge` marks a non-terminating reconciliation
loop; `ok` carries the returned distribution. -/
inductive DistResult where
  | insufficient : DistResult
  | diverge : DistResult
  | ok : List (String × Nat) → DistResult
deriving DecidableEq

/-- `FlagmanDistributor.distribute_personnel` (lines 39-79).  `rng` threads
the global randomness source, which this method never reads. -/
def distribute_personnel (rng : Nat) (total : Int) : DistResult :=
  if total < 7 then DistResult.insufficient
  else
    let n : Nat := (total - 1).toNat
    let remaining : Int := total - allocated n
    match add_sweeps (sorted_desc nonsupervisor_areas) remaining.toNat
        (first_pass_distribution n) remaining.toNat with
    | none => DistResult.diverge
    | some d1 =>
      match remove_sweeps (sorted_asc nonsupervisor_areas) (-remaining).toNat
          d1 (-remaining).toNat with
      | none => DistResult.diverge
      | some d2 => DistResult.ok d2

example : base_distribution 29 =
    [("GIS + MB", 7), ("Chiller Area", 5), ("SSD", 4), ("Gate", 3),
     ("NCC Office", 3), ("Store", 1)] := by decide

example : distribute_personnel 0 30 =
    DistResult.ok
      [("GIS + MB", 8), ("Chiller Area", 6), ("SSD", 5), ("Gate", 4),
       ("NCC Office", 4), ("Store", 2), ("Supervisors", 1)] := by decide

example : distribute_personnel 0 7 =
    DistResult.ok
      [("GIS + MB", 1), ("Chiller Area", 1), ("SSD", 1), ("Gate", 1),
       ("NCC Office", 1), ("Store", 1), ("Supervisors", 1)] := by decide

example : distribute_personnel 0 3 = DistResult.insufficient := by decide

/-! ## Helper lemmas about dict updates -/

theorem incr_area_map_fst (a : String) :
    ∀ dist : List (String × Nat), (incr_area dist a).map Prod.fst = dist.map Prod.fst := by
  intro dist
  induction dist with
  | nil => rfl
  | cons p rest ih =>
    simp only [incr_area, List.map_cons] at ih ⊢
    rw [ih]
    by_cases hpa : p.1 = a
    · simp [hpa]
    · simp [hpa]

theorem incr_area_of_not_mem (a : String) :
    ∀ dist : List (String × Nat), a ∉ dist.map Prod.fst → incr_area dist a = dist := by
  intro dist
  induction dist with
  | nil => intro _; rfl
  | cons p rest ih =>
    intro h
    simp only [List.map_cons, List.mem_cons] at h
    push_neg at h
    simp only [incr_area, List.map_cons]
    rw [if_neg (fun he => h.1 he.symm)]
    have := ih h.2
    simp only [incr_area] at this
    rw [this]

theorem incr_area_sum (a : String) :
    ∀ dist : List (String × Nat), (dist.map Prod.fst).Nodup → a ∈ dist.map Prod.fst →
      ((incr_area dist a).map Prod.snd).sum = ((dist.map Prod.snd).sum) + 1 := by
  intro dist
  induction dist with
  | nil => intro _ h; simp at h
  | cons p rest ih =>
    intro hnd hmem
    simp only [List.map_cons, List.nodup_cons] at hnd
    simp only [List.map_cons, List.mem_cons] at hmem
    rcases hmem with hpa | hrest
    · have hnr : a ∉ rest.map Prod.fst := hpa ▸ hnd.1
      simp only [incr_area, List.map_cons]
      rw [if_pos hpa.symm]
      have hrw := incr_area_of_not_mem a rest hnr
      simp only [incr_area] at hrw
      rw [hrw]
      simp only [List.map_cons, List.sum_cons]
      omega
    · have hpa : p.1 ≠ a := fun he => hnd.1 (he ▸ hrest)
      simp only [incr_area, List.map_cons]
      rw [if_neg hpa]
      have := ih hnd.2 hrest
      simp only [incr_area] at this
      simp only [List.map_cons, List.sum_cons, this]
      omega

theorem incr_area_lookup_ne (a b : String) (h : b ≠ a) :
    ∀ dist : List (String × Nat), (incr_area dist a).lookup b = dist.lookup b := by
  intro dist
  induction dist with
  | nil => rfl
  | cons p rest ih =>
    simp only [incr_area, List.map_cons] at ih ⊢
    by_cases hpa : p.1 = a
    · rw [if_pos hpa, List.lookup_cons, List.lookup_cons]
      have hb : (b == p.1) = false := by
        simp only [beq_eq_false_iff_ne, ne_eq]
        exact fun he => h (he.trans hpa)
      simp only [hb, ih]
    · rw [if_neg hpa, List.lookup_cons, List.lookup_cons]
      cases hbp : (b == p.1) <;> simp [ih]

theorem incr_area_counts (a : String) (dist : List (String × Nat))
    (h : ∀ p ∈ dist, 1 ≤ p.2) : ∀ p ∈ incr_area dist a, 1 ≤ p.2 := by
  intro p hp
  simp only [incr_area, List.mem_map] at hp
  obtain ⟨q, hq, rfl⟩ := hp
  by_cases hqa : q.1 = a
  · simp only [if_pos hqa]
    omega
  · simp only [if_neg hqa]
    exact h q hq

/-! ## The surplus sweep -/

theorem add_pass_spec (order : List String) :
    ∀ (dist : List (String × Nat)) (r : Nat),
      (dist.map Prod.fst).Nodup → (∀ a ∈ order, a ∈ dist.map Prod.fst) →
      (add_pass order (dist, r)).2 = r - min r order.length ∧
      (add_pass order (dist, r)).1.map Prod.fst = dist.map Prod.fst ∧
      ((add_pass order (dist, r)).1.map Prod.snd).sum + (add_pass order (dist, r)).2
        = ((dist.map Prod.snd).sum) + r ∧
      (∀ b, b ∉ order → (add_pass order (dist, r)).1.lookup b = dist.lookup b) ∧
      ((∀ p ∈ dist, 1 ≤ p.2) → ∀ p ∈ (add_pass order (dist, r)).1, 1 ≤ p.2) := by
  induction order with
  | nil =>
    intro dist r hnd hsub
    simp [add_pass]
  | cons a rest ih =>
    intro dist r hnd hsub
    have hmem : a ∈ dist.map Prod.fst := hsub a (List.mem_cons_self a rest)
    by_cases hr : 0 < r
    · simp only [add_pass, if_pos hr]
      have hk := incr_area_map_fst a dist
      have hnd2 : ((incr_area dist a).map Prod.fst).Nodup := by rw [hk]; exact hnd
      have hsub2 : ∀ x ∈ rest, x ∈ (incr_area dist a).map Prod.fst := by
        intro x hx; rw [hk]; exact hsub x (List.mem_cons_of_mem a hx)
      obtain ⟨h1, h2, h3, h4, h5⟩ := ih (incr_area dist a) (r - 1) hnd2 hsub2
      have hsum := incr_area_sum a dist hnd hmem
      refine ⟨?_, ?_, ?_, ?_, ?_⟩
      · rw [h1]; simp only [List.length_cons]; omega
      · rw [h2, hk]
      · rw [h3, hsum]; omega
      · intro b hb
        have hbne : b ≠ a := fun he => hb (he ▸ List.mem_cons_self a rest)
        have hbrest : b ∉ rest := fun hx => hb (List.mem_cons_of_mem a hx)
        rw [h4 b hbrest, incr_area_lookup_ne a b hbne]
      · intro hone
        exact h5 (incr_area_counts a dist hone)
    · simp only [add_pass, if_neg hr]
      have hr0 : r = 0 := by omega
      subst hr0
      have hsub2 : ∀ x ∈ rest, x ∈ dist.map Prod.fst := by
        intro x hx; exact hsub x (List.mem_cons_of_mem a hx)
      obtain ⟨h1, h2, h3, h4, h5⟩ := ih dist 0 hnd hsub2
      refine ⟨?_, h2, ?_, ?_, h5⟩
      · rw [h1]; simp only [List.length_cons]; omega
      · rw [h3]
      · intro b hb
        exact h4 b (fun hx => hb (List.mem_cons_of_mem a hx))

theorem add_sweeps_spec (order : List String) (hne : order ≠ []) :
    ∀ (fuel : Nat), ∀ (r : Nat) (dist : List (String × Nat)), r ≤ fuel →
      (dist.map Prod.fst).Nodup → (∀ a ∈ order, a ∈ dist.map Prod.fst) →
      ∃ d, add_sweeps order fuel dist r = some d ∧
        d.map Prod.fst = dist.map Prod.fst ∧
        (d.map Prod.snd).sum = ((dist.map Prod.snd).sum) + r ∧
        (∀ b, b ∉ order → d.lookup b = dist.lookup b) ∧
        ((∀ p ∈ dist, 1 ≤ p.2) → ∀ p ∈ d, 1 ≤ p.2) := by
  intro fuel
  induction fuel with
  | zero =>
    intro r dist hr hnd hsub
    have hr0 : r = 0 := by omega
    subst hr0
    exact ⟨dist, rfl, rfl, by omega, fun b _ => rfl, fun h => h⟩
  | succ fuel ih =>
    intro r dist hr hnd hsub
    cases r with
    | zero =>
      exact ⟨dist, rfl, rfl, by omega, fun b _ => rfl, fun h => h⟩
    | succ r0 =>
      obtain ⟨h1, h2, h3, h4, h5⟩ := add_pass_spec order dist (r0 + 1) hnd hsub
      have hlen : 1 ≤ order.length := by
        cases order with
        | nil => exact absurd rfl hne
        | cons x xs => simp
      have hfuel : (add_pass order (dist, r0 + 1)).2 ≤ fuel := by
        rw [h1]; omega
      have hnd2 : ((add_pass order (dist, r0 + 1)).1.map Prod.fst).Nodup := by
        rw [h2]; exact hnd
      have hsub2 : ∀ a ∈ order, a ∈ (add_pass order (dist, r0 + 1)).1.map Prod.fst := by
        intro x hx; rw [h2]; exact hsub x hx
      obtain ⟨d, hd, hk, hs, hl, hc⟩ :=
        ih (add_pass order (dist, r0 + 1)).2 (add_pass order (dist, r0 + 1)).1 hfuel hnd2 hsub2
      refine ⟨d, ?_, ?_, ?_, ?_, ?_⟩
      · exact hd
      · rw [hk, h2]
      · rw [hs]; omega
      · intro b hb
        rw [hl b hb, h4 b hb]
      · intro hone
        exact hc (h5 hone)

theorem remove_sweeps_zero (order : List String) (fuel : Nat)
    (dist : List (String × Nat)) : remove_sweeps order fuel dist 0 = some dist := by
  cases fuel <;> rfl

/-! ## Arithmetic of the first pass -/

theorem base_sum_eq (n : Nat) :
    ((base_distribution n).map Prod.snd).sum =
      max 1 (8 * n / 30) + (max 1 (6 * n / 30) + (max 1 (5 * n / 30) +
        (max 1 (4 * n / 30) + (max 1 (4 * n / 30) + (max 1 (2 * n / 30) + 0))))) := rfl

theorem base_sum_le (n : Nat) (h : 6 ≤ n) :
    ((base_distribution n).map Prod.snd).sum ≤ n := by
  rw [base_sum_eq]
  rcases Nat.lt_or_ge n 15 with h15 | h15
  · interval_cases n <;> decide
  · omega

theorem allocated_eq (n : Nat) :
    allocated n = ((base_distribution n).map Prod.snd).sum + 1 := by
  simp [allocated, first_pass_distribution]

theorem allocated_le (n : Nat) (h : 6 ≤ n) : allocated n ≤ n + 1 := by
  rw [allocated_eq]
  have := base_sum_le n h
  omega

/-! ## The distribution returned for any sufficient total -/

/-- The fixed presentation order of areas used by `generate_report`
(line 123), which coincides with the key order of the distribution dict. -/
def report_areas : List String :=
  ["GIS + MB", "Chiller Area", "SSD", "Gate", "NCC Office", "Store", "Supervisors"]

theorem first_pass_map_fst (n : Nat) :
    (first_pass_distribution n).map Prod.fst = report_areas := rfl

theorem first_pass_lookup_sup (n : Nat) :
    (first_pass_distribution n).lookup "Supervisors" = some 1 := rfl

theorem first_pass_counts (n : Nat) : ∀ p ∈ first_pass_distribution n, 1 ≤ p.2 := by
  intro p hp
  rcases List.mem_append.1 hp with hb | hs
  · simp only [base_distribution] at hb
    obtain ⟨q, hq, rfl⟩ := List.mem_map.1 hb
    exact Nat.le_max_left 1 _
  · simp only [List.mem_singleton] at hs
    subst hs
    exact le_refl 1

theorem sorted_desc_eq : sorted_desc nonsupervisor_areas =
    ["GIS + MB", "Chiller Area", "SSD", "Gate", "NCC Office", "Store"] := by decide

theorem distribute_personnel_ok (rng : Nat) (total : Int) (h : 7 ≤ total) :
    ∃ d, distribute_personnel rng total = DistResult.ok d ∧
      ((d.map Prod.snd).sum : Int) = total ∧
      d.map Prod.fst = report_areas ∧
      d.lookup "Supervisors" = some 1 ∧
      (∀ p ∈ d, 1 ≤ p.2) := by
  have hnlt : ¬ total < 7 := by omega
  have hn6 : 6 ≤ (total - 1).toNat := by omega
  have halloc : allocated ((total - 1).toNat) ≤ (total - 1).toNat + 1 :=
    allocated_le _ hn6
  have hremnn : (0 : Int) ≤ total - allocated ((total - 1).toNat) := by omega
  have hnegz : (-(total - (allocated ((total - 1).toNat) : Int))).toNat = 0 := by omega
  have hne : sorted_desc nonsupervisor_areas ≠ [] := by
    rw [sorted_desc_eq]; simp
  have hnd : ((first_pass_distribution ((total - 1).toNat)).map Prod.fst).Nodup := by
    rw [first_pass_map_fst]; decide
  have hsub : ∀ a ∈ sorted_desc nonsupervisor_areas,
      a ∈ (first_pass_distribution ((total - 1).toNat)).map Prod.fst := by
    rw [first_pass_map_fst, sorted_desc_eq]; decide
  obtain ⟨d1, hd1, hk1, hs1, hl1, hc1⟩ :=
    add_sweeps_spec (sorted_desc nonsupervisor_areas) hne
      (total - (allocated ((total - 1).toNat) : Int)).toNat
      (total - (allocated ((total - 1).toNat) : Int)).toNat
      (first_pass_distribution ((total - 1).toNat)) (le_refl _) hnd hsub
  have hunfold : distribute_personnel rng total = DistResult.ok d1 := by
    rw [distribute_personnel, if_neg hnlt]
    simp only [hd1, hnegz, remove_sweeps_zero]
  refine ⟨d1, hunfold, ?_, ?_, ?_, ?_⟩
  · rw [hs1]
    have hfpsum : ((first_pass_distribution ((total - 1).toNat)).map Prod.snd).sum
        = allocated ((total - 1).toNat) := rfl
    rw [hfpsum]
    omega
  · rw [hk1, first_pass_map_fst]
  · have hsup : "Supervisors" ∉ sorted_desc nonsupervisor_areas := by
      rw [sorted_desc_eq]; decide
    rw [hl1 "Supervisors" hsup, first_pass_lookup_sup]
  · exact hc1 (first_pass_counts _)

/-! ## Equipment assignment -/

/-- One step of the tally loop
`equipment_counts[equipment] = equipment_counts.get(equipment, 0) + 1`
(line 99): increment the entry with this key, or append a new entry with
count 1 at the end (dict insertion order). -/
def tally_insert : List (String × Nat) → String → List (String × Nat)
  | [], e => [(e, 1)]
  | (k, v) :: rest, e =>
    if k = e then (k, v + 1) :: rest else (k, v) :: tally_insert rest e

/-- The cyclic selections `equipment_list[i % len(equipment_list)]` for
`i in range(count)` (lines 97-98).  On the source's reachable states
`equipment_list` is a non-empty shuffled pool, so the index is in bounds. -/
def selections (equipment_list : List String) (count : Nat) : List String :=
  (List.range count).map (fun i => equipment_list.getD (i % equipment_list.length) "")

/-- The per-equipment occurrence tally built by the loop of lines 96-99, in
first-encountered order. -/
def equipment_counts (equipment_list : List String) (count : Nat) : List (String × Nat) :=
  (selections equipment_list count).foldl tally_insert []

/-- Formatting of one `(equipment, occurrences)` pair (lines 102-106):
a multiplicity suffix exactly when the occurrence count exceeds 1. -/
def format_assignment (p : String × Nat) : String :=
  if p.2 > 1 then p.1 ++ " x" ++ toString p.2 else p.1

/-- The `(equipment, occurrences)` sequence underlying
`get_equipment_assignments` (lines 81-108): the Supervisors sentinel is a
single fixed entry; the Store sentinel is the fixed label with the full
count; any other area tallies the cyclic assignment over its shuffled pool
`σ pool`; an area absent from the catalog is a `KeyError` (`none`). -/
def assignment_pairs (σ : List String → List String) (area : String) (count : Nat) :
    Option (List (String × Nat)) :=
  if area = "Supervisors" then some [("General Area", 1)]
  else
    match equipment_pools.lookup area with
    | none => none
    | some pool =>
      if area = "Store" then some [("Assigned", count)]
      else some (equipment_counts (σ pool) count)

/-- `FlagmanDistributor.get_equipment_assignments` (lines 81-108): the
formatted labels of the `(equipment, occurrences)` sequence. -/
def get_equipment_assignments (σ : List String → List String) (area : String) (count : Nat) :
    Option (List String) :=
  (assignment_pairs σ area count).map (List.map format_assignment)

example : get_equipment_assignments (fun l => l) "Store" 5 = some ["Assigned x5"] := by decide

example : get_equipment_assignments (fun l => l) "Gate" 9 =
    some ["Trailer x2", "Tough Rider x2", "Excavator", "Roller", "JCB", "Hydra", "Compactor"] := by
  decide

theorem tally_insert_sum (e : String) :
    ∀ l : List (String × Nat),
      ((tally_insert l e).map Prod.snd).sum = ((l.map Prod.snd).sum) + 1 := by
  intro l
  induction l with
  | nil => rfl
  | cons p rest ih =>
    obtain ⟨k, v⟩ := p
    by_cases hk : k = e
    · simp only [tally_insert, if_pos hk, List.map_cons, List.sum_cons]
      omega
    · simp only [tally_insert, if_neg hk, List.map_cons, List.sum_cons, ih]
      omega

theorem foldl_tally_sum :
    ∀ (L : List String) (init : List (String × Nat)),
      ((L.foldl tally_insert init).map Prod.snd).sum
        = ((init.map Prod.snd).sum) + L.length := by
  intro L
  induction L with
  | nil => intro init; simp
  | cons e rest ih =>
    intro init
    simp only [List.foldl_cons, List.length_cons, ih, tally_insert_sum]
    omega

theorem equipment_counts_sum (equipment_list : List String) (count : Nat) :
    ((equipment_counts equipment_list count).map Prod.snd).sum = count := by
  simp [equipment_counts, foldl_tally_sum, selections]

/-! ## Report generation -/

/-- The per-area report lines (lines 122-127): for each area in the fixed
presentation order, look up its distributed count, compute its equipment
assignments, and render `*area (count)* – label, label, ...`.  A missing
dict key or catalog entry is a `KeyError` (`none`). -/
def report_body (σ : List String → List String) (distribution : List (String × Nat)) :
    List String → Option String
  | [] => some ""
  | area :: rest =>
    match distribution.lookup area with
    | none => none
    | some count =>
      match get_equipment_assignments σ area count with
      | none => none
      | some assignments =>
        match report_body σ distribution rest with
        | none => none
        | some s =>
          some ("*" ++ area ++ " (" ++ toString count ++ ")* – " ++
            String.intercalate ", " assignments ++ "\n" ++ s)

/-- `FlagmanDistributor.generate_report` (lines 110-131).  `current_date`
stands for `datetime.now().strftime("%d-%m-%Y")`; `σ` is the shuffle oracle
threaded to the equipment assigner; `none` models a call that never returns
a string (divergence of `distribute_personnel` or an uncaught `KeyError`).
The falsy test `if not distribution` catches both `None` and an empty
dict. -/
def generate_report (rng : Nat) (σ : List String → List String) (current_date : String)
    (total_personnel : Int) : Option String :=
  match distribute_personnel rng total_personnel with
  | DistResult.diverge => none
  | DistResult.insufficient => some " Minimum 7 personnel required for distribution."
  | DistResult.ok distribution =>
    if distribution = [] then some " Minimum 7 personnel required for distribution."
    else
      match distribution.lookup "Supervisors" with
      | none => none
      | some sup =>
        match report_body σ distribution report_areas with
        | none => none
        | some body =>
          some ("*Flagman Distribution Report*\n" ++ "*Date :- " ++ current_date
            ++ "*\n\n" ++ body ++ "\n*Total Personnel: " ++ toString total_personnel
            ++ " (" ++ toString (total_personnel - (sup : Int)) ++ " Flagmen + "
            ++ toString (sup : Int) ++ " Supervisors)*")

theorem distribute_personnel_insufficient (rng : Nat) (total : Int) (h : total < 7) :
    distribute_personnel rng total = DistResult.insufficient := by
  rw [distribute_personnel, if_pos h]

theorem lookup_isSome_of_mem_keys (a : String) :
    ∀ dist : List (String × Nat), a ∈ dist.map Prod.fst → (dist.lookup a).isSome = true := by
  intro dist
  induction dist with
  | nil => intro h; simp at h
  | cons p rest ih =>
    intro h
    rw [List.lookup_cons]
    simp only [List.map_cons, List.mem_cons] at h
    by_cases hap : a = p.1
    · have : (a == p.1) = true := beq_iff_eq.2 hap
      simp [this]
    · have hb : (a == p.1) = false := by
        simp only [beq_eq_false_iff_ne, ne_eq]; exact hap
      rcases h with he | hr
      · exact absurd he hap
      · simp only [hb]
        exact ih hr

theorem get_equipment_assignments_isSome (σ : List String → List String)
    (area : String) (count : Nat)
    (h : area = "Supervisors" ∨ (equipment_pools.lookup area).isSome = true) :
    (get_equipment_assignments σ area count).isSome = true := by
  rw [get_equipment_assignments, assignment_pairs]
  by_cases hs : area = "Supervisors"
  · simp [hs]
  · rw [if_neg hs]
    rcases h with he | hp
    · exact absurd he hs
    · obtain ⟨pool, hpool⟩ := Option.isSome_iff_exists.1 hp
      rw [hpool]
      by_cases hst : area = "Store"
      · simp [hst]
      · simp [hst]

theorem report_body_isSome (σ : List String → List String)
    (distribution : List (String × Nat)) :
    ∀ L : List String, (∀ a ∈ L, (distribution.lookup a).isSome = true) →
      (∀ a ∈ L, a = "Supervisors" ∨ (equipment_pools.lookup a).isSome = true) →
      (report_body σ distribution L).isSome = true := by
  intro L
  induction L with
  | nil => intro _ _; rfl
  | cons area rest ih =>
    intro hl hp
    obtain ⟨count, hcount⟩ :=
      Option.isSome_iff_exists.1 (hl area (List.mem_cons_self area rest))
    obtain ⟨assignments, hassign⟩ := Option.isSome_iff_exists.1
      (get_equipment_assignments_isSome σ area count
        (hp area (List.mem_cons_self area rest)))
    obtain ⟨s, hrest⟩ := Option.isSome_iff_exists.1
      (ih (fun a ha => hl a (List.mem_cons_of_mem area ha))
          (fun a ha => hp a (List.mem_cons_of_mem area ha)))
    rw [report_body]
    simp only [hcount, hassign, hrest, Option.isSome_some]

theorem report_areas_pools :
    ∀ a ∈ report_areas, a = "Supervisors" ∨ (equipment_pools.lookup a).isSome = true := by
  decide

/-! ## Claim theorems -/

/-- C1: for every integer total in [7, 200], `distribute_personnel` returns
a distribution whose per-area counts sum exactly to the total. -/
theorem C1_distribute_sum (rng : Nat) (total : Int) (h7 : 7 ≤ total) (h200 : total ≤ 200) :
    ∃ d, distribute_personnel rng total = DistResult.ok d ∧
      ((d.map Prod.snd).sum : Int) = total := by
  obtain ⟨d, hd, hs, _, _, _⟩ := distribute_personnel_ok rng total h7
  exact ⟨d, hd, hs⟩

/-- Witness for C1 at total = 30. -/
theorem C1_distribute_sum_witness :
    (7 : Int) ≤ 30 ∧ (30 : Int) ≤ 200 ∧
      ∃ d, distribute_personnel 0 30 = DistResult.ok d ∧
        ((d.map Prod.snd).sum : Int) = 30 :=
  ⟨by decide, by decide, C1_distribute_sum 0 30 (by decide) (by decide)⟩

/-- The spec's words for the first-pass divisor, kept for comparison with
the code: `W` = sum of priority weights over all NON-supervisor areas
(= 29), and base count `max(1, floor(w / W * (total - 1)))`. -/
def spec_nonsupervisor_weight_sum : Nat :=
  ((area_priorities.filter (fun p => p.1 ≠ "Supervisors")).map Prod.snd).sum

/-- The spec's claimed base-count formula, with the spec's divisor. -/
def spec_base_count (w n : Nat) : Nat :=
  max 1 (w * n / spec_nonsupervisor_weight_sum)

/-- C2 counterexample: at total = 30 the code's first-pass base count for
`GIS + MB` (weight 8) is max(1, ⌊8·29/30⌋) = 7 — the code divides by the
sum of ALL weights, supervisor included — while the claimed formula with
W = 29 (non-supervisor weights only) gives 8. -/
theorem C2_counterexample :
    (base_distribution ((30 : Int) - 1).toNat).lookup "GIS + MB" = some 7 ∧
      spec_base_count 8 ((30 : Int) - 1).toNat = 8 ∧ (7 : Nat) ≠ 8 := by
  decide

/-- C2 (amended): the base count computed in the first pass equals
`max(1, floor(w / W * (total - 1)))` where `W` = `total_priority` is the sum
of the priority weights over ALL areas, the supervisor area included
(= 30), not over the non-supervisor areas only. -/
theorem C2_first_pass_base (total : Int) (area : String) (w : Nat)
    (hmem : (area, w) ∈ area_priorities) (hns : area ≠ "Supervisors") :
    (base_distribution ((total - 1).toNat)).lookup area
      = some (max 1 (w * (total - 1).toNat / total_priority)) := by
  have hmem2 := hmem
  simp only [area_priorities, List.mem_cons, List.mem_singleton, List.not_mem_nil,
    or_false, Prod.mk.injEq] at hmem2
  rcases hmem2 with ⟨rfl, rfl⟩ | ⟨rfl, rfl⟩ | ⟨rfl, rfl⟩ | ⟨rfl, rfl⟩ |
    ⟨rfl, rfl⟩ | ⟨rfl, rfl⟩ | ⟨rfl, rfl⟩
  · rfl
  · rfl
  · rfl
  · rfl
  · rfl
  · rfl
  · exact absurd rfl hns

/-- Witness for C2 (amended) at total = 30, area SSD (weight 5). -/
theorem C2_first_pass_base_witness :
    ("SSD", 5) ∈ area_priorities ∧ "SSD" ≠ "Supervisors" ∧
      (base_distribution (((30 : Int)) - 1).toNat).lookup "SSD"
        = some (max 1 (5 * (((30 : Int)) - 1).toNat / total_priority)) :=
  ⟨by decide, by decide, C2_first_pass_base 30 "SSD" 5 (by decide) (by decide)⟩

/-- C3: for every total ≥ 7 — including 300, which exceeds the transport's
upper bound — the reconciliation sweeps terminate (the result is not the
diverging outcome) and the returned counts sum to the total. -/
theorem C3_terminates_and_sums (rng : Nat) (total : Int) (h7 : 7 ≤ total) :
    distribute_personnel rng total ≠ DistResult.diverge ∧
      ∃ d, distribute_personnel rng total = DistResult.ok d ∧
        ((d.map Prod.snd).sum : Int) = total := by
  obtain ⟨d, hd, hs, _, _, _⟩ := distribute_personnel_ok rng total h7
  refine ⟨?_, d, hd, hs⟩
  rw [hd]
  simp

/-- Witness for C3 at total = 300. -/
theorem C3_terminates_and_sums_witness :
    distribute_personnel 0 300 ≠ DistResult.diverge ∧
      ∃ d, distribute_personnel 0 300 = DistResult.ok d ∧
        ((d.map Prod.snd).sum : Int) = 300 :=
  C3_terminates_and_sums 0 300 (by decide)

/-- C4: for every integer total in [7, 200] the returned distribution maps
Supervisors to exactly 1 and every area count is at least 1. -/
theorem C4_supervisor_one (rng : Nat) (total : Int) (h7 : 7 ≤ total) (h200 : total ≤ 200) :
    ∃ d, distribute_personnel rng total = DistResult.ok d ∧
      d.lookup "Supervisors" = some 1 ∧ ∀ p ∈ d, 1 ≤ p.2 := by
  obtain ⟨d, hd, _, _, hsup, hone⟩ := distribute_personnel_ok rng total h7
  exact ⟨d, hd, hsup, hone⟩

/-- Witness for C4 at total = 12. -/
theorem C4_supervisor_one_witness :
    (7 : Int) ≤ 12 ∧ (12 : Int) ≤ 200 ∧
      ∃ d, distribute_personnel 0 12 = DistResult.ok d ∧
        d.lookup "Supervisors" = some 1 ∧ ∀ p ∈ d, 1 ≤ p.2 :=
  ⟨by decide, by decide, C4_supervisor_one 0 12 (by decide) (by decide)⟩

/-- C5: for every total < 7, `distribute_personnel` fails with the
insufficient-personnel outcome (the source's `return None`) and returns no
distribution. -/
theorem C5_insufficient (rng : Nat) (total : Int) (h : total < 7) :
    distribute_personnel rng total = DistResult.insufficient :=
  distribute_personnel_insufficient rng total h

/-- Witness for C5 at total = 3. -/
theorem C5_insufficient_witness :
    (3 : Int) < 7 ∧ distribute_personnel 0 3 = DistResult.insufficient :=
  ⟨by decide, C5_insufficient 0 3 (by decide)⟩

/-- C6 counterexample: `Supervisors` is in the catalog and 2 ≥ 1, yet the
assignment sequence for (`Supervisors`, 2) is the single fixed entry of
multiplicity 1, whose occurrence counts sum to 1, not 2. -/
theorem C6_counterexample :
    "Supervisors" ∈ equipment_pools.map Prod.fst ∧ 1 ≤ 2 ∧
      assignment_pairs (fun l => l) "Supervisors" 2 = some [("General Area", 1)] ∧
      (([("General Area", 1)] : List (String × Nat)).map Prod.snd).sum ≠ 2 := by
  decide

/-- C6 (amended): for every area in the catalog OTHER than the Supervisors
sentinel, every count ≥ 1, and every shuffle outcome `σ` of the area's pool,
the occurrence counts of the assignment sequence sum exactly to the count
(for the Supervisors sentinel they always sum to 1 instead). -/
theorem C6_assignment_sums (σ : List String → List String) (area : String)
    (pool : List String) (count : Nat)
    (hpool : equipment_pools.lookup area = some pool)
    (hperm : (σ pool).Perm pool) (hc : 1 ≤ count) (hns : area ≠ "Supervisors") :
    ∃ pairs, assignment_pairs σ area count = some pairs ∧
      (pairs.map Prod.snd).sum = count := by
  rw [assignment_pairs, if_neg hns]
  by_cases hst : area = "Store"
  · simp only [hpool, if_pos hst]
    exact ⟨[("Assigned", count)], rfl, by simp⟩
  · simp only [hpool, if_neg hst]
    exact ⟨equipment_counts (σ pool) count, rfl, equipment_counts_sum (σ pool) count⟩

/-- Witness for C6 (amended): area Gate with the identity shuffle, count 3. -/
theorem C6_assignment_sums_witness :
    equipment_pools.lookup "Gate"
        = some ["Trailer", "Tough Rider", "Excavator", "Roller", "JCB", "Hydra", "Compactor"] ∧
      ∃ pairs, assignment_pairs (fun l => l) "Gate" 3 = some pairs ∧
        (pairs.map Prod.snd).sum = 3 :=
  ⟨by decide,
   C6_assignment_sums (fun l => l) "Gate"
     ["Trailer", "Tough Rider", "Excavator", "Roller", "JCB", "Hydra", "Compactor"] 3
     (by decide) (List.Perm.refl _) (by decide) (by decide)⟩

/-- C7: the two sentinel areas bypass the catalog: Supervisors always yields
the single fixed label `General Area` regardless of the count; Store yields
`Assigned` at count 1 and, for any count > 1, a single label carrying an
explicit multiplicity suffix (e.g. `Assigned x5` for count 5). -/
theorem C7_sentinels (σ : List String → List String) (n : Nat) (hn : 1 ≤ n) :
    get_equipment_assignments σ "Supervisors" n = some ["General Area"] ∧
      get_equipment_assignments σ "Store" 1 = some ["Assigned"] ∧
      (∀ c : Nat, 1 < c →
        get_equipment_assignments σ "Store" c = some ["Assigned x" ++ toString c]) ∧
      get_equipment_assignments σ "Store" 5 = some ["Assigned x5"] := by
  refine ⟨rfl, rfl, ?_, rfl⟩
  intro c hc
  have h1 : assignment_pairs σ "Store" c = some [("Assigned", c)] := rfl
  rw [get_equipment_assignments, h1]
  simp only [Option.map_some', List.map_cons, List.map_nil]
  have h2 : format_assignment ("Assigned", c) = "Assigned" ++ " x" ++ toString c := by
    simp [format_assignment, hc]
  rw [h2]
  have h3 : ("Assigned" ++ " x" : String) = "Assigned x" := rfl
  rw [h3]

/-- Witness for C7 with the identity shuffle at n = 2 and c = 5. -/
theorem C7_sentinels_witness :
    get_equipment_assignments (fun l => l) "Supervisors" 2 = some ["General Area"] ∧
      get_equipment_assignments (fun l => l) "Store" 5 = some ["Assigned x5"] :=
  ⟨(C7_sentinels (fun l => l) 2 (by decide)).1,
   (C7_sentinels (fun l => l) 2 (by decide)).2.2.2⟩

/-- C8: `distribute_personnel` is a pure deterministic function of the total
and the static priority table: its result is independent of the threaded
randomness-source state, so two calls with the same total yield identical
distributions. -/
theorem C8_deterministic (rng1 rng2 : Nat) (total : Int) :
    distribute_personnel rng1 total = distribute_personnel rng2 total := rfl

/-- C9: `generate_report` never fails to return a string, and whenever
total < 7 the string is the fixed minimum-headcount message rather than a
report. -/
theorem C9_generate_report_total (rng : Nat) (σ : List String → List String)
    (current_date : String) (total : Int) :
    (generate_report rng σ current_date total).isSome = true ∧
      (total < 7 →
        generate_report rng σ current_date total
          = some " Minimum 7 personnel required for distribution.") := by
  by_cases h7 : total < 7
  · have hins := distribute_personnel_insufficient rng total h7
    have heq : generate_report rng σ current_date total
        = some " Minimum 7 personnel required for distribution." := by
      rw [generate_report]
      simp only [hins]
    exact ⟨by rw [heq]; rfl, fun _ => heq⟩
  · have h7a : 7 ≤ total := by omega
    obtain ⟨d, hd, _, hkeys, hsup, _⟩ := distribute_personnel_ok rng total h7a
    have hdne : ¬ d = [] := by
      intro he
      rw [he] at hkeys
      simp [report_areas] at hkeys
    obtain ⟨body, hbodyeq⟩ := Option.isSome_iff_exists.1
      (report_body_isSome σ d report_areas
        (fun a ha => lookup_isSome_of_mem_keys a d (by rw [hkeys]; exact ha))
        report_areas_pools)
    constructor
    · rw [generate_report]
      simp only [hd, if_neg hdne, hsup, hbodyeq, Option.isSome_some]
    · intro hlt
      exact absurd hlt h7

/-- Witness for C9 at total = 3. -/
theorem C9_generate_report_total_witness :
    (generate_report 0 (fun l => l) "01-01-2025" 3).isSome = true ∧
      generate_report 0 (fun l => l) "01-01-2025" 3
        = some " Minimum 7 personnel required for distribution." :=
  ⟨(C9_generate_report_total 0 (fun l => l) "01-01-2025" 3).1,
   (C9_generate_report_total 0 (fun l => l) "01-01-2025" 3).2 (by decide)⟩

/-- C10: under the configured priority table, for every total ≥ 7 the first
pass plus the supervisor slot never over-allocates: the surplus
`total - allocated` is nonnegative, so the deficit fed to the removal loop
is 0 — the over-allocation removal loop never executes, the all-counts-at-1
deadlock state is unreachable, and the call returns a distribution. -/
theorem C10_no_overallocation (rng : Nat) (total : Int) (h7 : 7 ≤ total) :
    area_priorities = [("GIS + MB", 8), ("Chiller Area", 6), ("SSD", 5), ("Gate", 4),
        ("NCC Office", 4), ("Store", 2), ("Supervisors", 1)] ∧
      0 ≤ total - (allocated ((total - 1).toNat) : Int) ∧
      (-(total - (allocated ((total - 1).toNat) : Int))).toNat = 0 ∧
      ∃ d, distribute_personnel rng total = DistResult.ok d := by
  have hn6 : 6 ≤ (total - 1).toNat := by omega
  have halloc := allocated_le _ hn6
  obtain ⟨d, hd, _, _, _, _⟩ := distribute_personnel_ok rng total h7
  exact ⟨rfl, by omega, by omega, d, hd⟩

/-- Witness for C10 at total = 100. -/
theorem C10_no_overallocation_witness :
    0 ≤ (100 : Int) - (allocated (((100 : Int) - 1).toNat) : Int) ∧
      ∃ d, distribute_personnel 0 100 = DistResult.ok d :=
  ⟨(C10_no_overallocation 0 100 (by decide)).2.1,
   (C10_no_overallocation 0 100 (by decide)).2.2.2⟩
